import Mathlib

/-!
Shallow embedding of the policy value model of
`config2spec/policies/policy.py`: the `PolicyType` enumeration, the
`PolicySource` and `PolicyDestination` value objects, the `Policy` base
class with its `ReachabilityPolicy`, `WaypointPolicy` and
`LoadBalancingPolicy` variants, destination-string parsing, canonical
rendering, hashing, the `get_policy` factory and the `from_df` record
ingestion, together with theorems settling the specification claims.

Python equality methods that can raise (`AttributeError` on a missing
attribute, `TypeError` on formatting) are modelled as `Except Unit`,
where `.error ()` stands for the raised exception.
-/

/-- The `PolicyType` enumeration, members in declaration order. -/
inductive PolicyType
  | Reachability
  | Isolation
  | Waypoint
  | LoadBalancingSimple
  | LoadBalancingEdgeDisjoint
  | LoadBalancingNodeDisjoint
deriving DecidableEq, Repr

/-- Ordinal value assigned to each member in the source (`Reachability = 1`, ...). -/
def PolicyType.value : PolicyType → Nat
  | .Reachability => 1
  | .Isolation => 2
  | .Waypoint => 3
  | .LoadBalancingSimple => 4
  | .LoadBalancingEdgeDisjoint => 5
  | .LoadBalancingNodeDisjoint => 6

/-- Member name as it appears in the textual form `PolicyType.<Name>`. -/
def PolicyType.pyName : PolicyType → String
  | .Reachability => "Reachability"
  | .Isolation => "Isolation"
  | .Waypoint => "Waypoint"
  | .LoadBalancingSimple => "LoadBalancingSimple"
  | .LoadBalancingEdgeDisjoint => "LoadBalancingEdgeDisjoint"
  | .LoadBalancingNodeDisjoint => "LoadBalancingNodeDisjoint"

/-- `PolicyType.__lt__`: compare the ordinal values of two members. -/
def PolicyType.ltB (a b : PolicyType) : Bool := decide (a.value < b.value)

/-- `PolicyType.__gt__`: compare the ordinal values of two members. -/
def PolicyType.gtB (a b : PolicyType) : Bool := decide (b.value < a.value)

/-- Python `str.split(c)` for a one-character separator `c`, on the
character list of the string: split at every occurrence of `c`. -/
def splitAll (c : Char) : List Char → List (List Char)
  | [] => [[]]
  | x :: xs =>
    match splitAll c xs with
    | h :: t => if x = c then [] :: h :: t else (x :: h) :: t
    | [] => [[x]]

/-- `PolicyType.__eq__` against a string, from the source: split the string
on dots; if it splits into exactly two parts that are the class name
`PolicyType` and the member name, the comparison is true; any other
string falls through (`ValueError` is swallowed) to the default equality
of an enum member with a string, which is false. -/
def PolicyType.eqStr (t : PolicyType) (s : String) : Bool :=
  match splitAll '.' s.data with
  | [e, o] => decide (e = "PolicyType".data) && decide (o = t.pyName.data)
  | _ => false

theorem splitAll_ne_nil (c : Char) (l : List Char) : splitAll c l ≠ [] := by
  cases l with
  | nil => simp [splitAll]
  | cons x xs =>
    simp only [splitAll]
    cases h : splitAll c xs with
    | nil => simp
    | cons hd tl => by_cases hx : x = c <;> simp [hx]

theorem splitAll_singleton {c : Char} {l b : List Char}
    (h : splitAll c l = [b]) : l = b := by
  induction l generalizing b with
  | nil =>
    simp only [splitAll, List.cons.injEq, and_true] at h
    exact h
  | cons x xs ih =>
    simp only [splitAll] at h
    cases hs : splitAll c xs with
    | nil => exact absurd hs (splitAll_ne_nil c xs)
    | cons hd tl =>
      rw [hs] at h
      by_cases hx : x = c
      · simp [hx] at h
      · simp only [if_neg hx, List.cons.injEq] at h
        obtain ⟨h1, h2⟩ := h
        subst h2
        have hxs : xs = hd := ih (by rw [hs])
        rw [← h1, hxs]

theorem splitAll_pair {c : Char} {l a b : List Char}
    (h : splitAll c l = [a, b]) : l = a ++ c :: b := by
  induction l generalizing a with
  | nil => simp [splitAll] at h
  | cons x xs ih =>
    simp only [splitAll] at h
    cases hs : splitAll c xs with
    | nil => exact absurd hs (splitAll_ne_nil c xs)
    | cons hd tl =>
      rw [hs] at h
      by_cases hx : x = c
      · simp only [if_pos hx, List.cons.injEq] at h
        obtain ⟨h1, h2, h3⟩ := h
        subst h3
        have hxs : xs = b := splitAll_singleton (by rw [hs, h2])
        rw [← h1, hxs, hx]
        rfl
      · simp only [if_neg hx, List.cons.injEq] at h
        obtain ⟨h1, h2⟩ := h
        have hxs : xs = hd ++ c :: b := ih (by rw [hs, h2])
        rw [← h1, hxs]
        rfl

/-- If the string equality of an enum member with a string is true, the
string is exactly `PolicyType.<member name>`. -/
theorem PolicyType.eqStr_eq {t : PolicyType} {s : String}
    (h : t.eqStr s = true) : s = "PolicyType." ++ t.pyName := by
  unfold PolicyType.eqStr at h
  cases hs : splitAll '.' s.data with
  | nil => rw [hs] at h; cases h
  | cons e tl =>
    cases tl with
    | nil => rw [hs] at h; cases h
    | cons o tl2 =>
      cases tl2 with
      | cons u tl3 => rw [hs] at h; cases h
      | nil =>
        rw [hs] at h
        simp only [Bool.and_eq_true, decide_eq_true_eq] at h
        obtain ⟨he, ho⟩ := h
        have hdata : s.data = e ++ '.' :: o := splitAll_pair hs
        apply String.ext
        rw [hdata, he, ho, String.data_append]
        rfl

/-- C6: a `PolicyType` member equals the string `PolicyType.<Name>` exactly
when `<Name>` is its own name, and any string that does not split into
exactly two dot-separated parts compares as false (no exception). -/
theorem c6_policytype_string_equality :
    (∀ t u : PolicyType,
      t.eqStr ("PolicyType." ++ u.pyName) = decide (t = u)) ∧
    (∀ (t : PolicyType) (s : String),
      (splitAll '.' s.data).length ≠ 2 → t.eqStr s = false) := by
  constructor
  · intro t u
    cases t <;> cases u <;> decide
  · intro t s h
    unfold PolicyType.eqStr
    cases hs : splitAll '.' s.data with
    | nil => rfl
    | cons e tl =>
      cases tl with
      | nil => rfl
      | cons o tl2 =>
        cases tl2 with
        | nil => rw [hs] at h; simp at h
        | cons u tl3 => rfl

/-- Witness for C6 at concrete inputs: equality with its own string form,
with another member's string form, and with a garbage string. -/
theorem c6_policytype_string_equality_witness :
    PolicyType.eqStr .Reachability "garbage" = false :=
  c6_policytype_string_equality.2 .Reachability "garbage" (by decide)

/-- C7: trichotomy of the value-based order on `PolicyType`: for every two
members exactly one of `a < b`, `a = b`, `a > b` holds, and the order
follows declaration order. -/
theorem c7_policytype_total_order :
    (∀ a b : PolicyType,
      (PolicyType.ltB a b = true ∧ a ≠ b ∧ PolicyType.gtB a b = false) ∨
      (PolicyType.ltB a b = false ∧ a = b ∧ PolicyType.gtB a b = false) ∨
      (PolicyType.ltB a b = false ∧ a ≠ b ∧ PolicyType.gtB a b = true)) ∧
    PolicyType.ltB .Reachability .Isolation = true ∧
    PolicyType.ltB .Isolation .Waypoint = true ∧
    PolicyType.ltB .Waypoint .LoadBalancingSimple = true ∧
    PolicyType.ltB .LoadBalancingSimple .LoadBalancingEdgeDisjoint = true ∧
    PolicyType.ltB .LoadBalancingEdgeDisjoint .LoadBalancingNodeDisjoint = true := by
  refine ⟨fun a b => ?_, by decide, by decide, by decide, by decide, by decide⟩
  cases a <;> cases b <;> decide

/-- `PolicySource`: wraps a router identifier. -/
structure PolicySource where
  router : String
deriving DecidableEq, Repr

/-- `PolicyDestination`: wraps a router, an interface and a subnet. -/
structure PolicyDestination where
  router : String
  interface : String
  subnet : String
deriving DecidableEq, Repr

/-- `PolicyDestination.__str__`: canonical rendering
`<router>:<interface> (<subnet>)`. -/
def PolicyDestination.pyStr (d : PolicyDestination) : String :=
  d.router ++ ":" ++ d.interface ++ " (" ++ d.subnet ++ ")"

/-- Split a character list at the first occurrence of `c`; `none` when `c`
does not occur. -/
def splitFirst (c : Char) : List Char → Option (List Char × List Char)
  | [] => none
  | x :: xs =>
    if x = c then some ([], xs)
    else (splitFirst c xs).map (fun p => (x :: p.1, p.2))

/-- `PolicyDestination.from_string`: semantics of `re.match` with the
anchored pattern for `<router>:<interface> (<subnet>)` where the router
group is one or more non-colon characters, the interface group one or
more non-space characters and the subnet group one or more characters
other than a closing parenthesis. Because the character classes exclude
their own delimiters, a match forces the split at the first colon, the
first space after it and the first closing parenthesis after the opening
one. The dollar anchor of the Python pattern also matches just before a
single newline that ends the string, hence the final check accepts
either an empty remainder or a lone newline. -/
def PolicyDestination.from_string (s : String) : Option PolicyDestination :=
  match splitFirst ':' s.data with
  | none => none
  | some (r, rest) =>
    if r = [] then none
    else
      match splitFirst ' ' rest with
      | none => none
      | some (i, rest2) =>
        if i = [] then none
        else
          match rest2 with
          | [] => none
          | c0 :: rest3 =>
            if c0 = '(' then
              match splitFirst ')' rest3 with
              | none => none
              | some (b, tail) =>
                if b = [] then none
                else if tail = [] ∨ tail = ['\n'] then
                  some ⟨String.mk r, String.mk i, String.mk b⟩
                else none
            else none

theorem splitFirst_append (c : Char) {a : List Char} (ha : c ∉ a)
    (t : List Char) : splitFirst c (a ++ c :: t) = some (a, t) := by
  induction a with
  | nil => simp [splitFirst]
  | cons x xs ih =>
    have hx : x ≠ c := fun h => ha (h ▸ List.mem_cons_self x xs)
    have hxs : c ∉ xs := fun h => ha (List.mem_cons_of_mem x h)
    rw [List.cons_append, splitFirst, if_neg hx, ih hxs]
    rfl

theorem splitFirst_some {c : Char} {l a t : List Char}
    (h : splitFirst c l = some (a, t)) : l = a ++ c :: t ∧ c ∉ a := by
  induction l generalizing a t with
  | nil => cases h
  | cons x xs ih =>
    simp only [splitFirst] at h
    by_cases hx : x = c
    · rw [if_pos hx] at h
      simp only [Option.some.injEq, Prod.mk.injEq] at h
      obtain ⟨h1, h2⟩ := h
      subst h2
      rw [← h1, hx]
      simp
    · rw [if_neg hx] at h
      cases hs : splitFirst c xs with
      | none => rw [hs] at h; cases h
      | some p =>
        obtain ⟨a2, t2⟩ := p
        rw [hs] at h
        simp only [Option.map_some', Option.some.injEq, Prod.mk.injEq] at h
        obtain ⟨h1, h2⟩ := h
        subst h2
        obtain ⟨hl, hm⟩ := ih hs
        constructor
        · rw [← h1, hl]
          rfl
        · rw [← h1]
          intro hmem
          rcases List.mem_cons.mp hmem with h | h
          · exact hx h.symm
          · exact hm h

/-- The documented destination grammar over a character list: the text
`<router>:<interface> (<subnet>)` where the router part contains no
colon, the interface part no space and the subnet part no closing
parenthesis. Modelled from the words of the specification for comparison
with the parser. -/
def GrammarChars (l : List Char) : Prop :=
  ∃ r i b : List Char, ':' ∉ r ∧ ' ' ∉ i ∧ ')' ∉ b ∧
    l = r ++ [':'] ++ i ++ [' ', '('] ++ b ++ [')']

/-- A string matches the documented destination grammar. -/
def SpecDestGrammar (s : String) : Prop := GrammarChars s.data

/-- A successful parse means the input is a grammar string, possibly
followed by one trailing newline. -/
theorem from_string_some_chars {s : String} {d : PolicyDestination}
    (h : PolicyDestination.from_string s = some d) :
    GrammarChars s.data ∨ ∃ l, GrammarChars l ∧ s.data = l ++ ['\n'] := by
  unfold PolicyDestination.from_string at h
  cases h1 : splitFirst ':' s.data with
  | none => simp [h1] at h
  | some rp =>
    obtain ⟨r, rest⟩ := rp
    obtain ⟨hs1, hm1⟩ := splitFirst_some h1
    simp only [h1] at h
    by_cases hr : r = []
    · simp [hr] at h
    · rw [if_neg hr] at h
      cases h2 : splitFirst ' ' rest with
      | none => simp [h2] at h
      | some ip =>
        obtain ⟨i, rest2⟩ := ip
        obtain ⟨hs2, hm2⟩ := splitFirst_some h2
        by_cases hi : i = []
        · simp [h2, hi] at h
        · cases rest2 with
          | nil => simp [h2, if_neg hi] at h
          | cons c0 rest3 =>
            simp only [h2, if_neg hi] at h
            by_cases hc : c0 = '('
            · subst hc
              rw [if_pos rfl] at h
              cases h3 : splitFirst ')' rest3 with
              | none => simp [h3] at h
              | some bp =>
                obtain ⟨b, tail⟩ := bp
                obtain ⟨hs3, hm3⟩ := splitFirst_some h3
                simp only [h3] at h
                by_cases hb : b = []
                · simp [hb] at h
                · rw [if_neg hb] at h
                  by_cases ht : tail = [] ∨ tail = ['\n']
                  · rcases ht with ht | ht
                    · left
                      refine ⟨r, i, b, hm1, hm2, hm3, ?_⟩
                      subst ht
                      rw [hs1, hs2, hs3]
                      simp
                    · right
                      refine ⟨r ++ [':'] ++ i ++ [' ', '('] ++ b ++ [')'],
                        ⟨r, i, b, hm1, hm2, hm3, rfl⟩, ?_⟩
                      subst ht
                      rw [hs1, hs2, hs3]
                      simp
                  · rw [if_neg ht] at h; cases h
            · rw [if_neg hc] at h; cases h

/-- C5 counterexample: the claim says every string outside the grammar
parses to `none`, but the dollar anchor of `re.match` also accepts a
string with one trailing newline, which is outside the grammar and still
parses successfully. -/
theorem c5_nomatch_counterexample :
    ¬ SpecDestGrammar "r2:eth0 (10.0.0.0/24)\n" ∧
    PolicyDestination.from_string "r2:eth0 (10.0.0.0/24)\n" =
      some ⟨"r2", "eth0", "10.0.0.0/24"⟩ := by
  constructor
  · rintro ⟨r, i, b, _, _, _, he⟩
    have hlast := congrArg List.getLast? he
    rw [List.getLast?_concat] at hlast
    exact absurd hlast (by decide)
  · decide

/-- C5 amended: every string that neither matches the documented grammar
nor consists of a grammar-matching string followed by a single trailing
newline is parsed to `none` (parsing is total, so it never raises). -/
theorem c5_nomatch_amended (s : String)
    (h1 : ¬ SpecDestGrammar s)
    (h2 : ¬ ∃ l, GrammarChars l ∧ s.data = l ++ ['\n']) :
    PolicyDestination.from_string s = none := by
  cases hfs : PolicyDestination.from_string s with
  | none => rfl
  | some d =>
    rcases from_string_some_chars hfs with hg | hg
    · exact absurd hg h1
    · exact absurd hg h2

/-- Witness for C5: the empty string matches neither form and parses to
`none`. -/
theorem c5_nomatch_amended_witness :
    PolicyDestination.from_string "" = none :=
  c5_nomatch_amended ""
    (by
      rintro ⟨r, i, b, _, _, _, he⟩
      have h0 : ("" : String).data = [] := rfl
      rw [h0] at he
      have hlen := congrArg List.length he
      simp only [List.length_nil, List.length_append, List.length_cons] at hlen
      omega)
    (by
      rintro ⟨l, _, he⟩
      have h0 : ("" : String).data = [] := rfl
      rw [h0] at he
      have hlen := congrArg List.length he
      simp only [List.length_nil, List.length_append, List.length_cons] at hlen
      omega)

/-- C4 counterexample: the claim omits that the three fields must be
nonempty; with an empty router, interface or subnet, the rendering does
not parse back (the regular expression requires one or more characters
in each group), so the round trip fails. -/
theorem c4_roundtrip_counterexample :
    PolicyDestination.from_string (PolicyDestination.pyStr ⟨"", "eth0", "10.0.0.0/24"⟩) ≠
      some ⟨"", "eth0", "10.0.0.0/24"⟩ ∧
    PolicyDestination.from_string (PolicyDestination.pyStr ⟨"r2", "", "10.0.0.0/24"⟩) ≠
      some ⟨"r2", "", "10.0.0.0/24"⟩ ∧
    PolicyDestination.from_string (PolicyDestination.pyStr ⟨"r2", "eth0", ""⟩) ≠
      some ⟨"r2", "eth0", ""⟩ := by
  refine ⟨by decide, by decide, by decide⟩

/-- C4 amended: for every destination whose router is nonempty and free of
colons, whose interface is nonempty and free of spaces and whose subnet
is nonempty and free of closing parentheses, parsing the canonical
rendering returns the destination itself. -/
theorem c4_roundtrip_amended (d : PolicyDestination)
    (hr : ':' ∉ d.router.data) (hrne : d.router.data ≠ [])
    (hi : ' ' ∉ d.interface.data) (hine : d.interface.data ≠ [])
    (hb : ')' ∉ d.subnet.data) (hbne : d.subnet.data ≠ []) :
    PolicyDestination.from_string d.pyStr = some d := by
  have hcolon : (":" : String).data = [':'] := rfl
  have hparen : (" (" : String).data = [' ', '('] := rfl
  have hclose : (")" : String).data = [')'] := rfl
  have hdata : d.pyStr.data =
      d.router.data ++ ':' :: (d.interface.data ++ ' ' ::
        ('(' :: (d.subnet.data ++ ')' :: []))) := by
    simp [PolicyDestination.pyStr, String.data_append, hcolon, hparen, hclose]
  unfold PolicyDestination.from_string
  rw [hdata]
  simp only [splitFirst_append ':' hr, if_neg hrne, splitFirst_append ' ' hi, if_neg hine,
    splitFirst_append ')' hb, if_neg hbne]
  simp

/-- Witness for C4 at a concrete destination. -/
theorem c4_roundtrip_amended_witness :
    PolicyDestination.from_string (PolicyDestination.pyStr ⟨"r2", "eth0", "10.0.0.0/24"⟩) =
      some ⟨"r2", "eth0", "10.0.0.0/24"⟩ :=
  c4_roundtrip_amended ⟨"r2", "eth0", "10.0.0.0/24"⟩
    (by decide) (by decide) (by decide) (by decide) (by decide) (by decide)

/-- A `specifics` value: an integer when the record text is all digits,
otherwise the string itself. This is also the type of the `waypoints`
and `num_paths` attributes. Python equality of an int with a string is
false, which matches the structural equality of this type. -/
inductive Specifics
  | int (n : Int)
  | str (s : String)
deriving DecidableEq, Repr

/-- Python string form of a specifics value. -/
def Specifics.pyStr : Specifics → String
  | .int n => toString n
  | .str s => s

/-- A policy type-field value as it flows through the module: either a
genuine `PolicyType` member or a plain string (direct construction by a
variant, or the `type` column of a record). -/
inductive KindVal
  | ofType (t : PolicyType)
  | ofStr (s : String)
deriving DecidableEq, Repr

/-- Python `==` on two type-field values: member against member is
identity; string against string is string equality; a mixed pair
resolves to the string-aware `PolicyType.__eq__` (directly or as the
reflected operand). -/
def kindValEq : KindVal → KindVal → Bool
  | .ofType a, .ofType b => decide (a = b)
  | .ofStr a, .ofStr b => decide (a = b)
  | .ofStr s, .ofType t => t.eqStr s
  | .ofType t, .ofStr s => t.eqStr s

/-- Python `str` of a type-field value; `str` of an enum member is
`PolicyType.<Name>`. -/
def kindValStr : KindVal → String
  | .ofType t => "PolicyType." ++ t.pyName
  | .ofStr s => s

/-- An element of a policy sources list: a `PolicySource` object, or the
raw string put there by record ingestion. Python equality across the two
shapes is false (`PolicySource.__eq__` checks the exact type and a
string never equals a `PolicySource`), matching structural equality. -/
inductive SourceVal
  | psrc (p : PolicySource)
  | pstr (s : String)
deriving DecidableEq, Repr

/-- Python string form of a sources-list element; `PolicySource.__str__`
returns the router identifier. -/
def SourceVal.pyStr : SourceVal → String
  | .psrc p => p.router
  | .pstr s => s

/-- Rendering of a destinations-list element; Python prints `None` for an
absent destination. -/
def optDestStr : Option PolicyDestination → String
  | none => "None"
  | some d => d.pyStr

/-- The policy object model: the base `Policy` class and its three
variants. The variant constructors fix the `type` field to a literal
string and (for waypoint and load balancing) leave `negate` at false;
`waypoints` and `num_paths` exist only on the respective variants. -/
inductive Policy
  | base (type : KindVal) (sources : List SourceVal)
      (destinations : List (Option PolicyDestination)) (negate : Bool)
  | reach (sources : List SourceVal)
      (destinations : List (Option PolicyDestination)) (negate : Bool)
  | waypoint (sources : List SourceVal)
      (destinations : List (Option PolicyDestination)) (waypoints : Specifics)
  | loadbal (sources : List SourceVal)
      (destinations : List (Option PolicyDestination)) (num_paths : Specifics)
deriving DecidableEq, Repr

/-- The `type` attribute of a policy. -/
def Policy.typeOf : Policy → KindVal
  | .base t _ _ _ => t
  | .reach _ _ _ => .ofStr "reachability"
  | .waypoint _ _ _ => .ofStr "waypoint"
  | .loadbal _ _ _ => .ofStr "loadbalancing"

/-- The `sources` attribute of a policy. -/
def Policy.sourcesOf : Policy → List SourceVal
  | .base _ s _ _ => s
  | .reach s _ _ => s
  | .waypoint s _ _ => s
  | .loadbal s _ _ => s

/-- The `destinations` attribute of a policy. -/
def Policy.destsOf : Policy → List (Option PolicyDestination)
  | .base _ _ d _ => d
  | .reach _ d _ => d
  | .waypoint _ d _ => d
  | .loadbal _ d _ => d

/-- The `negate` attribute of a policy. -/
def Policy.negateOf : Policy → Bool
  | .base _ _ _ n => n
  | .reach _ _ n => n
  | .waypoint _ _ _ => false
  | .loadbal _ _ _ => false

/-- The `waypoints` attribute: present only on `WaypointPolicy`. -/
def Policy.waypointsAttr : Policy → Option Specifics
  | .waypoint _ _ w => some w
  | _ => none

/-- The `num_paths` attribute: present only on `LoadBalancingPolicy`. -/
def Policy.numPathsAttr : Policy → Option Specifics
  | .loadbal _ _ n => some n
  | _ => none

/-- `Policy.__eq__`: structural comparison of the type, sources,
destinations and negate fields. -/
def Policy.baseEq (p q : Policy) : Bool :=
  kindValEq p.typeOf q.typeOf && decide (p.sourcesOf = q.sourcesOf) &&
    decide (p.destsOf = q.destsOf) && decide (p.negateOf = q.negateOf)

/-- `WaypointPolicy.__eq__` with `w` the waypoints of `self`: the base
comparison and then `self.waypoints == other.waypoints`; reading
`other.waypoints` raises `AttributeError` when `other` lacks the
attribute (the read happens only when the base comparison was true,
because `and` short-circuits). -/
def Policy.wpMethod (w : Specifics) (self other : Policy) : Except Unit Bool :=
  if Policy.baseEq self other then
    match other.waypointsAttr with
    | some w2 => .ok (decide (w = w2))
    | none => .error ()
  else .ok false

/-- `LoadBalancingPolicy.__eq__` with `n` the num_paths of `self`,
analogous to the waypoint case. -/
def Policy.lbMethod (n : Specifics) (self other : Policy) : Except Unit Bool :=
  if Policy.baseEq self other then
    match other.numPathsAttr with
    | some m => .ok (decide (n = m))
    | none => .error ()
  else .ok false

/-- Python `p == q` on two policies, including the interpreter dispatch:
when the right operand's class is a proper subclass of the left
operand's class, the right operand's equality runs first with the roles
swapped (this is how a base `Policy` compared with a variant reaches the
variant's method); otherwise the left operand's method runs.
`ReachabilityPolicy` does not override `__eq__`, so every pairing not
involving `waypoint` or `loadbal` uses the base comparison. -/
def Policy.pyEq : Policy → Policy → Except Unit Bool
  | .base t s d n, .reach s2 d2 n2 =>
    .ok (Policy.baseEq (.reach s2 d2 n2) (.base t s d n))
  | .base t s d n, .waypoint s2 d2 w =>
    Policy.wpMethod w (.waypoint s2 d2 w) (.base t s d n)
  | .base t s d n, .loadbal s2 d2 m =>
    Policy.lbMethod m (.loadbal s2 d2 m) (.base t s d n)
  | .waypoint s d w, q => Policy.wpMethod w (.waypoint s d w) q
  | .loadbal s d m, q => Policy.lbMethod m (.loadbal s d m) q
  | p, q => .ok (Policy.baseEq p q)

/-- `Policy.__str__`, base part:
`<type> policy: \x7b<sources>\x7d-><destinations in braces>, negate=<bool>`. -/
def Policy.baseStr (p : Policy) : String :=
  kindValStr p.typeOf ++ " policy: \x7b" ++
    String.intercalate ", " (p.sourcesOf.map SourceVal.pyStr) ++ "\x7d->\x7b" ++
    String.intercalate ", " (p.destsOf.map optDestStr) ++ "\x7d, negate=" ++
    (if p.negateOf then "True" else "False")

/-- `__str__` of a policy: the variants append their suffix. Formatting
`num_paths` with the `%d` directive raises `TypeError` when it is a
string, so rendering a load-balancing policy with a string `num_paths`
fails. -/
def Policy.render : Policy → Except Unit String
  | .waypoint s d w =>
    .ok (Policy.baseStr (.waypoint s d w) ++ " - Waypoints " ++ w.pyStr)
  | .loadbal s d (.int k) =>
    .ok (Policy.baseStr (.loadbal s d (.int k)) ++ " - NumPaths " ++ toString k)
  | .loadbal _ _ (.str _) => .error ()
  | p => .ok (Policy.baseStr p)

/-- A stand-in for the Python string hash: within one process Python's
hash is some fixed function of the character sequence; any such concrete
function makes equal strings hash equally. -/
def pyHash (s : String) : Nat :=
  s.data.foldl (fun h c => (h * 1000003 + c.toNat) % (2 ^ 64)) 5381

/-- `Policy.__hash__`: the hash of the rendered string; it propagates the
rendering failure. -/
def Policy.pyHashVal (p : Policy) : Except Unit Nat := p.render.map pyHash

/-- `Policy.get_policy`: dispatch on the policy kind. Each test compares
the incoming kind with an enum member using the string-aware equality,
so a plain string kind matches only in the form `PolicyType.<Name>`;
kinds matching no branch give `none`. -/
def Policy.get_policy (k : KindVal) (sources : List SourceVal)
    (destinations : List (Option PolicyDestination))
    (specifics : Specifics) : Option Policy :=
  if kindValEq k (.ofType .Reachability) then some (.reach sources destinations false)
  else if kindValEq k (.ofType .Isolation) then some (.reach sources destinations true)
  else if kindValEq k (.ofType .Waypoint) then some (.waypoint sources destinations specifics)
  else if kindValEq k (.ofType .LoadBalancingSimple) then some (.loadbal sources destinations specifics)
  else none

/-- A tabular record as consumed by `Policy.from_df`. -/
structure Record where
  type : String
  source : String
  Destinations : String
  specifics : String
deriving DecidableEq, Repr

/-- Python `s[1:-1]`: drop the first and the last character. -/
def pySliceInner (s : String) : String := String.mk (s.data.drop 1).dropLast

/-- Python `split(", ")` on a character list: cut at every non-overlapping
occurrence of a comma followed by a space, scanning left to right. -/
def splitCommaSpace : List Char → List (List Char)
  | [] => [[]]
  | ',' :: ' ' :: xs => [] :: splitCommaSpace xs
  | x :: xs =>
    match splitCommaSpace xs with
    | h :: t => (x :: h) :: t
    | [] => [[x]]

/-- Python `str.isdigit`: nonempty and all characters digits. -/
def pyIsDigit (s : String) : Bool := !s.data.isEmpty && s.data.all Char.isDigit

/-- Python `int` applied to a digit string. -/
def pyStrToInt (s : String) : Int :=
  Int.ofNat (s.data.foldl (fun n c => n * 10 + (c.toNat - 48)) 0)

/-- The destination substrings of a record: the `Destinations` column with
the first and last character stripped, split on comma-space. -/
def destParts (s : String) : List String :=
  (splitCommaSpace (pySliceInner s).data).map String.mk

/-- `Policy.from_df`: build a policy from a record. The kind is the raw
string of the `type` column; the single source is the raw `source`
string; each destination substring is parsed, a failed parse
contributing `none`; `specifics` becomes an int exactly when the column
text is all digits. -/
def Policy.from_df (df : Record) : Option Policy :=
  Policy.get_policy (.ofStr df.type) [.pstr df.source]
    ((destParts df.Destinations).map PolicyDestination.from_string)
    (if pyIsDigit df.specifics then .int (pyStrToInt df.specifics) else .str df.specifics)

/-- A Python value at an equality call site: an int, a plain string, or a
policy object. -/
inductive PyVal
  | int (n : Int)
  | str (s : String)
  | pol (p : Policy)

/-- `p == x` for a policy `p` and an arbitrary value. Against another
policy this is the dispatched policy equality. Against an int or a
string the interpreter still calls `Policy.__eq__` (in one of the two
operand orders), whose first step reads `other.type`; ints and strings
have no `type` attribute, so an `AttributeError` is raised. -/
def Policy.eqVal (p : Policy) (x : PyVal) : Except Unit Bool :=
  match x with
  | .pol q => Policy.pyEq p q
  | .int _ => .error ()
  | .str _ => .error ()

/-- Type-field values that compare equal render to the same string. -/
theorem kindValEq_str {a b : KindVal} (h : kindValEq a b = true) :
    kindValStr a = kindValStr b := by
  cases a with
  | ofType t =>
    cases b with
    | ofType u =>
      simp only [kindValEq, decide_eq_true_eq] at h
      rw [h]
    | ofStr s =>
      simp only [kindValEq] at h
      show "PolicyType." ++ t.pyName = s
      exact (PolicyType.eqStr_eq h).symm
  | ofStr s =>
    cases b with
    | ofType u =>
      simp only [kindValEq] at h
      show s = "PolicyType." ++ u.pyName
      exact PolicyType.eqStr_eq h
    | ofStr s2 =>
      simp only [kindValEq, decide_eq_true_eq] at h
      rw [h]

/-- Two plain-string type fields compare equal only when the strings are
equal. -/
theorem kindValEq_strs {a b : String}
    (h : kindValEq (.ofStr a) (.ofStr b) = true) : a = b := by
  simpa [kindValEq] using h

/-- Unpacking a successful base comparison into its four conjuncts. -/
theorem Policy.baseEq_parts {p q : Policy} (h : Policy.baseEq p q = true) :
    kindValEq p.typeOf q.typeOf = true ∧ p.sourcesOf = q.sourcesOf ∧
      p.destsOf = q.destsOf ∧ p.negateOf = q.negateOf := by
  simp only [Policy.baseEq, Bool.and_eq_true, decide_eq_true_eq] at h
  exact ⟨h.1.1.1, h.1.1.2, h.1.2, h.2⟩

/-- Policies whose base comparison succeeds have the same base rendering. -/
theorem Policy.baseEq_baseStr {p q : Policy} (h : Policy.baseEq p q = true) :
    Policy.baseStr p = Policy.baseStr q := by
  obtain ⟨h1, h2, h3, h4⟩ := Policy.baseEq_parts h
  unfold Policy.baseStr
  rw [kindValEq_str h1, h2, h3, h4]

/-- A successful waypoint comparison forces a successful base comparison
and an equal `waypoints` attribute on the other object. -/
theorem Policy.wpMethod_ok_true {w : Specifics} {self other : Policy}
    (h : Policy.wpMethod w self other = .ok true) :
    Policy.baseEq self other = true ∧ other.waypointsAttr = some w := by
  unfold Policy.wpMethod at h
  by_cases hb : Policy.baseEq self other
  · rw [if_pos hb] at h
    cases hw : other.waypointsAttr with
    | none => rw [hw] at h; cases h
    | some w2 =>
      rw [hw] at h
      simp only [Except.ok.injEq, decide_eq_true_eq] at h
      refine ⟨hb, ?_⟩
      rw [h]
  · rw [if_neg hb] at h
    simp at h

/-- A successful load-balancing comparison forces a successful base
comparison and an equal `num_paths` attribute on the other object. -/
theorem Policy.lbMethod_ok_true {n : Specifics} {self other : Policy}
    (h : Policy.lbMethod n self other = .ok true) :
    Policy.baseEq self other = true ∧ other.numPathsAttr = some n := by
  unfold Policy.lbMethod at h
  by_cases hb : Policy.baseEq self other
  · rw [if_pos hb] at h
    cases hm : other.numPathsAttr with
    | none => rw [hm] at h; cases h
    | some m2 =>
      rw [hm] at h
      simp only [Except.ok.injEq, decide_eq_true_eq] at h
      refine ⟨hb, ?_⟩
      rw [h]
  · rw [if_neg hb] at h
    simp at h

/-- C1: two policies that compare equal (without raising) render to the
same string and therefore hash identically; covers mixes of the base
class and the variants. -/
theorem c1_eq_implies_hash_render (p q : Policy)
    (h : Policy.pyEq p q = .ok true) :
    Policy.pyHashVal p = Policy.pyHashVal q ∧ Policy.render p = Policy.render q := by
  suffices hrend : Policy.render p = Policy.render q by
    refine ⟨?_, hrend⟩
    unfold Policy.pyHashVal
    rw [hrend]
  cases p with
  | base t s d n =>
    cases q with
    | base t2 s2 d2 n2 =>
      replace h : (Except.ok (Policy.baseEq (.base t s d n) (.base t2 s2 d2 n2)) :
        Except Unit Bool) = .ok true := h
      have hb := Except.ok.inj h
      show (Except.ok (Policy.baseStr (.base t s d n)) : Except Unit String) =
        .ok (Policy.baseStr (.base t2 s2 d2 n2))
      rw [Policy.baseEq_baseStr hb]
    | reach s2 d2 n2 =>
      replace h : (Except.ok (Policy.baseEq (.reach s2 d2 n2) (.base t s d n)) :
        Except Unit Bool) = .ok true := h
      have hb := Except.ok.inj h
      show (Except.ok (Policy.baseStr (.base t s d n)) : Except Unit String) =
        .ok (Policy.baseStr (.reach s2 d2 n2))
      rw [Policy.baseEq_baseStr hb]
    | waypoint s2 d2 w =>
      replace h : Policy.wpMethod w (.waypoint s2 d2 w) (.base t s d n) = .ok true := h
      obtain ⟨_, hw⟩ := Policy.wpMethod_ok_true h
      simp [Policy.waypointsAttr] at hw
    | loadbal s2 d2 m =>
      replace h : Policy.lbMethod m (.loadbal s2 d2 m) (.base t s d n) = .ok true := h
      obtain ⟨_, hm⟩ := Policy.lbMethod_ok_true h
      simp [Policy.numPathsAttr] at hm
  | reach s d n =>
    cases q with
    | base t2 s2 d2 n2 =>
      replace h : (Except.ok (Policy.baseEq (.reach s d n) (.base t2 s2 d2 n2)) :
        Except Unit Bool) = .ok true := h
      have hb := Except.ok.inj h
      show (Except.ok (Policy.baseStr (.reach s d n)) : Except Unit String) =
        .ok (Policy.baseStr (.base t2 s2 d2 n2))
      rw [Policy.baseEq_baseStr hb]
    | reach s2 d2 n2 =>
      replace h : (Except.ok (Policy.baseEq (.reach s d n) (.reach s2 d2 n2)) :
        Except Unit Bool) = .ok true := h
      have hb := Except.ok.inj h
      show (Except.ok (Policy.baseStr (.reach s d n)) : Except Unit String) =
        .ok (Policy.baseStr (.reach s2 d2 n2))
      rw [Policy.baseEq_baseStr hb]
    | waypoint s2 d2 w =>
      replace h : (Except.ok (Policy.baseEq (.reach s d n) (.waypoint s2 d2 w)) :
        Except Unit Bool) = .ok true := h
      have hb := Except.ok.inj h
      obtain ⟨h1, _⟩ := Policy.baseEq_parts hb
      simp only [Policy.typeOf] at h1
      exact absurd (kindValEq_strs h1) (by decide)
    | loadbal s2 d2 m =>
      replace h : (Except.ok (Policy.baseEq (.reach s d n) (.loadbal s2 d2 m)) :
        Except Unit Bool) = .ok true := h
      have hb := Except.ok.inj h
      obtain ⟨h1, _⟩ := Policy.baseEq_parts hb
      simp only [Policy.typeOf] at h1
      exact absurd (kindValEq_strs h1) (by decide)
  | waypoint s d w =>
    cases q with
    | base t2 s2 d2 n2 =>
      replace h : Policy.wpMethod w (.waypoint s d w) (.base t2 s2 d2 n2) = .ok true := h
      obtain ⟨_, hw⟩ := Policy.wpMethod_ok_true h
      simp [Policy.waypointsAttr] at hw
    | reach s2 d2 n2 =>
      replace h : Policy.wpMethod w (.waypoint s d w) (.reach s2 d2 n2) = .ok true := h
      obtain ⟨_, hw⟩ := Policy.wpMethod_ok_true h
      simp [Policy.waypointsAttr] at hw
    | waypoint s2 d2 w2 =>
      replace h : Policy.wpMethod w (.waypoint s d w) (.waypoint s2 d2 w2) = .ok true := h
      obtain ⟨hb, hw⟩ := Policy.wpMethod_ok_true h
      simp only [Policy.waypointsAttr, Option.some.injEq] at hw
      show (Except.ok (Policy.baseStr (.waypoint s d w) ++ " - Waypoints " ++ w.pyStr) :
        Except Unit String) =
        .ok (Policy.baseStr (.waypoint s2 d2 w2) ++ " - Waypoints " ++ w2.pyStr)
      rw [Policy.baseEq_baseStr hb, hw]
    | loadbal s2 d2 m =>
      replace h : Policy.wpMethod w (.waypoint s d w) (.loadbal s2 d2 m) = .ok true := h
      obtain ⟨_, hw⟩ := Policy.wpMethod_ok_true h
      simp [Policy.waypointsAttr] at hw
  | loadbal s d m =>
    cases q with
    | base t2 s2 d2 n2 =>
      replace h : Policy.lbMethod m (.loadbal s d m) (.base t2 s2 d2 n2) = .ok true := h
      obtain ⟨_, hm⟩ := Policy.lbMethod_ok_true h
      simp [Policy.numPathsAttr] at hm
    | reach s2 d2 n2 =>
      replace h : Policy.lbMethod m (.loadbal s d m) (.reach s2 d2 n2) = .ok true := h
      obtain ⟨_, hm⟩ := Policy.lbMethod_ok_true h
      simp [Policy.numPathsAttr] at hm
    | waypoint s2 d2 w2 =>
      replace h : Policy.lbMethod m (.loadbal s d m) (.waypoint s2 d2 w2) = .ok true := h
      obtain ⟨_, hm⟩ := Policy.lbMethod_ok_true h
      simp [Policy.numPathsAttr] at hm
    | loadbal s2 d2 m2 =>
      replace h : Policy.lbMethod m (.loadbal s d m) (.loadbal s2 d2 m2) = .ok true := h
      obtain ⟨hb, hm⟩ := Policy.lbMethod_ok_true h
      simp only [Policy.numPathsAttr, Option.some.injEq] at hm
      subst hm
      cases m2 with
      | int k =>
        show (Except.ok (Policy.baseStr (.loadbal s d (.int k)) ++ " - NumPaths " ++ toString k) :
          Except Unit String) =
          .ok (Policy.baseStr (.loadbal s2 d2 (.int k)) ++ " - NumPaths " ++ toString k)
        rw [Policy.baseEq_baseStr hb]
      | str s3 => rfl

/-- Witness for C1: a `ReachabilityPolicy` and a base `Policy` with the
same fields compare equal, and indeed hash and render identically. -/
theorem c1_eq_implies_hash_render_witness :
    Policy.pyHashVal (.reach [.psrc ⟨"r1"⟩] [some ⟨"r2", "eth0", "10.0.0.0/24"⟩] false) =
      Policy.pyHashVal (.base (.ofStr "reachability") [.psrc ⟨"r1"⟩]
        [some ⟨"r2", "eth0", "10.0.0.0/24"⟩] false) ∧
    Policy.render (.reach [.psrc ⟨"r1"⟩] [some ⟨"r2", "eth0", "10.0.0.0/24"⟩] false) =
      Policy.render (.base (.ofStr "reachability") [.psrc ⟨"r1"⟩]
        [some ⟨"r2", "eth0", "10.0.0.0/24"⟩] false) :=
  c1_eq_implies_hash_render _ _ (by rfl)

/-- C2 counterexample: with the bare kind string `Reachability`, every
factory comparison fails (the enum's string equality only accepts the
two-part form `PolicyType.<Name>`), so `from_df` returns `none` rather
than the claimed reachability policy. -/
theorem c2_from_df_counterexample :
    Policy.from_df ⟨"Reachability", "r1", "\x7br2:eth0 (10.0.0.0/24)\x7d", "0"⟩ = none := by
  rfl

/-- C2 amended: with the kind in its serialized form
`PolicyType.Reachability`, the record yields a `ReachabilityPolicy` whose
sources list is exactly the one raw source string `r1` and whose
destinations list is exactly the one parsed destination
`router=r2, interface=eth0, subnet=10.0.0.0/24`. -/
theorem c2_from_df_amended :
    Policy.from_df ⟨"PolicyType.Reachability", "r1", "\x7br2:eth0 (10.0.0.0/24)\x7d", "0"⟩ =
      some (.reach [.pstr "r1"] [some ⟨"r2", "eth0", "10.0.0.0/24"⟩] false) := by
  rfl

/-- C3 counterexample: comparing a policy with the integer 5 raises
`AttributeError` (the equality reads `other.type` first), so it does not
return false. -/
theorem c3_unrelated_eq_counterexample :
    Policy.eqVal (.reach [.pstr "r1"] [none] false) (.int 5) = .error () ∧
    Policy.eqVal (.reach [.pstr "r1"] [none] false) (.int 5) ≠ .ok false := by
  refine ⟨rfl, ?_⟩
  intro hcontra
  cases hcontra

/-- C3 amended: for every policy and every value of an unrelated type (an
int or a plain string), the comparison raises `AttributeError` instead
of returning false. -/
theorem c3_unrelated_eq_amended (p : Policy) (n : Int) (s : String) :
    Policy.eqVal p (.int n) = .error () ∧ Policy.eqVal p (.str s) = .error () :=
  ⟨rfl, rfl⟩

/-- C8: for every source list, destination list and specifics, the factory
with kind `Reachability` returns a reachability policy with negate
false, with kind `Isolation` one with negate true, and both have the
type field `reachability`. -/
theorem c8_factory_reach_isolation (S : List SourceVal)
    (D : List (Option PolicyDestination)) (sp : Specifics) :
    Policy.get_policy (.ofType .Reachability) S D sp = some (.reach S D false) ∧
    Policy.get_policy (.ofType .Isolation) S D sp = some (.reach S D true) ∧
    (Policy.reach S D false).typeOf = .ofStr "reachability" ∧
    (Policy.reach S D false).negateOf = false ∧
    (Policy.reach S D true).typeOf = .ofStr "reachability" ∧
    (Policy.reach S D true).negateOf = true :=
  ⟨rfl, rfl, rfl, rfl, rfl, rfl⟩

/-- C9: the factory returns `none` for every kind outside the four
supported ones, in particular the two disjoint-path load-balancing
kinds, and it does not raise (it is total). -/
theorem c9_factory_unsupported (S : List SourceVal)
    (D : List (Option PolicyDestination)) (sp : Specifics) (t : PolicyType)
    (h1 : t ≠ .Reachability) (h2 : t ≠ .Isolation) (h3 : t ≠ .Waypoint)
    (h4 : t ≠ .LoadBalancingSimple) :
    Policy.get_policy (.ofType t) S D sp = none := by
  cases t with
  | Reachability => exact absurd rfl h1
  | Isolation => exact absurd rfl h2
  | Waypoint => exact absurd rfl h3
  | LoadBalancingSimple => exact absurd rfl h4
  | LoadBalancingEdgeDisjoint => rfl
  | LoadBalancingNodeDisjoint => rfl

/-- Witness for C9 at `LoadBalancingEdgeDisjoint` with specifics 2. -/
theorem c9_factory_unsupported_witness :
    Policy.get_policy (.ofType .LoadBalancingEdgeDisjoint) [.pstr "r1"] [none] (.int 2) = none :=
  c9_factory_unsupported [.pstr "r1"] [none] (.int 2) .LoadBalancingEdgeDisjoint
    (by decide) (by decide) (by decide) (by decide)

/-- Every policy the factory returns carries exactly the destination list
it was given. -/
theorem Policy.get_policy_dests {k : KindVal} {S : List SourceVal}
    {D : List (Option PolicyDestination)} {sp : Specifics} {p : Policy}
    (h : Policy.get_policy k S D sp = some p) : p.destsOf = D := by
  unfold Policy.get_policy at h
  split at h
  · cases h; rfl
  · split at h
    · cases h; rfl
    · split at h
      · cases h; rfl
      · split at h
        · cases h; rfl
        · cases h

/-- C10: when `from_df` accepts a record (its kind is one the factory
supports), every destination substring that fails to parse contributes a
`none` entry at its position in the resulting destinations list; the
record as a whole is not rejected and nothing is raised. -/
theorem c10_malformed_dest_none (df : Record) (p : Policy)
    (hp : Policy.from_df df = some p) (i : Nat) (s : String)
    (hs : (destParts df.Destinations)[i]? = some s)
    (hbad : PolicyDestination.from_string s = none) :
    p.destsOf[i]? = some none := by
  unfold Policy.from_df at hp
  have hd := Policy.get_policy_dests hp
  rw [hd, List.getElem?_map, hs]
  simp [hbad]

/-- Witness for C10: a record with one malformed and one well-formed
destination substring yields a policy with `none` in position zero of
its destinations list. -/
theorem c10_malformed_dest_none_witness :
    (Policy.reach [.pstr "r1"] [none, some ⟨"r2", "eth0", "10.0.0.0/24"⟩] false).destsOf[0]? =
      some none :=
  c10_malformed_dest_none
    ⟨"PolicyType.Reachability", "r1", "\x7bgarbage, r2:eth0 (10.0.0.0/24)\x7d", "0"⟩
    (Policy.reach [.pstr "r1"] [none, some ⟨"r2", "eth0", "10.0.0.0/24"⟩] false)
    (by rfl) 0 "garbage" (by rfl) (by rfl)
